import Mathlib

/-!
Verification of `StepGitMergeOptions.Run`, the command `jx step git merge`.

Shallow embedding of `pkg/jx/cmd/step_git_merge.go`.

* `Run` mutates its receiver, reads two environment variables, logs, and calls three
  functions that live in other packages (`prow.ParsePullRefs`, `util.AsString`,
  `gits.FetchAndMergeSHAs`).  The environment and these three functions are the fields of
  `World`; every theorem about `Run` is stated for an arbitrary `World`.
* Every effect of `Run` is recorded, in program order, in a trace of `Event`s, so that
  "is never consulted", "is not invoked" and "is invoked exactly once" are statements about
  that trace.
* A Go `error` is a `GoError`; a nil error is `none`.
-/

set_option autoImplicit false

namespace StepGitMerge

/-! ## Data model -/

/-- Go error values: `fmt.Errorf(msg)` and `errors.Wrapf(cause, msg)` of `github.com/pkg/errors`. -/
inductive GoError where
  | errorf (msg : String)
  | wrapf (cause : GoError) (msg : String)
  deriving DecidableEq

/-- The `Error()` method: a wrapped error prints its message, a colon, and its cause. -/
def GoError.Error : GoError → String
  | .errorf msg => msg
  | .wrapf cause msg => msg ++ ": " ++ cause.Error

/-- The error that was handed to `Wrapf`, one unwrapping step (the function `errors.Cause`
of the library walks on to the root; this is the direct cause only). -/
def GoError.Cause : GoError → Option GoError
  | .errorf _ => none
  | .wrapf cause _ => some cause

/-- A Go `interface{}` value as stored in the ordered mapping: a string, the nil interface,
or a value of any other dynamic type (kept with its `%v` rendering). -/
inductive Value where
  | str (s : String)
  | nil
  | other (rendering : String)
  deriving DecidableEq

/-- The `%v` verb of `fmt` applied to a `Value`. -/
def Value.format : Value → String
  | .str s => s
  | .nil => "<nil>"
  | .other r => r

/-- Modelled from the spec: the ordered mapping from branch name to commit returned by
`prow.ParsePullRefs` (a library type, not part of `step_git_merge.go`): the keys in first-seen
order, and a Go map from key to value (an association list read by first match). -/
structure OrderedMap where
  keys : List String
  values : List (String × Value)
  deriving DecidableEq

/-- The empty ordered mapping. -/
def OrderedMap.New : OrderedMap := ⟨[], []⟩

/-- The key slice of the mapping, `branchSHAs.Keys()`. -/
def OrderedMap.Keys (m : OrderedMap) : List String := m.keys

/-- The lookup `branchSHAs.Get(key)`: the stored value and `true`, or the nil interface and
`false` when the key is absent. -/
def OrderedMap.Get (m : OrderedMap) (key : String) : Value × Bool :=
  match m.values.lookup key with
  | some v => (v, true)
  | none => (Value.nil, false)

/-- Insertion: a new key is appended to the key slice, an existing key keeps its position. -/
def OrderedMap.Set (m : OrderedMap) (key : String) (v : Value) : OrderedMap :=
  match m.values.lookup key with
  | some _ => ⟨m.keys, (key, v) :: m.values⟩
  | none => ⟨m.keys ++ [key], (key, v) :: m.values⟩

/-- The command line flags (`StepGitMergeOptions`, lines 23-31). -/
structure StepGitMergeOptions where
  SHAs : List String
  Remote : String
  Dir : String
  BaseBranch : String
  BaseSHA : String
  deriving DecidableEq

/-- The effects `Run` can have, in the order of the source. -/
inductive Event where
  | getenv (name : String)
  | infof (msg : String)
  | parsePullRefs (raw : String)
  | asString (v : Value)
  | fetchAndMergeSHAs (shas : List String) (baseBranch baseSHA remote dir : String)
  deriving DecidableEq

/-- Whether an event is a call of the merge collaborator. -/
def Event.isMerge : Event → Bool
  | .fetchAndMergeSHAs _ _ _ _ _ => true
  | _ => false

/-- What `Run` depends on and does not define: the process environment (`os.Getenv`, which
returns the empty string for an unset variable) and the three functions of other packages.
The git client handle `o.Git()` is part of the merge collaborator here. -/
structure World where
  getenv : String → String
  ParsePullRefs : String → Except GoError OrderedMap
  AsString : Value → Except GoError String
  FetchAndMergeSHAs : List String → String → String → String → String → Option GoError

/-- The result of one invocation of `Run`: the receiver after the call (`o` is a pointer), the
trace of effects, and the returned error (`none` is Go's nil). -/
structure Outcome where
  o : StepGitMergeOptions
  trace : List Event
  err : Option GoError

/-! ## The command -/

/-- The loop of lines 105-112: for every key, look the value up, convert it to a string and
append it to `o.SHAs`; the first failed conversion ends `Run` with a wrapped error. The
arguments are the keys still to visit, `o.SHAs` so far and the trace so far. -/
def convertSHAs (w : World) (branchSHAs : OrderedMap) :
    List String → List String → List Event → List String × List Event × Option GoError
  | [], shas, tr => (shas, tr, none)
  | branch :: rest, shas, tr =>
    let unk := (branchSHAs.Get branch).1
    match w.AsString unk with
    | .error err =>
      (shas, tr ++ [Event.asString unk],
        some (GoError.wrapf err ("converting " ++ unk.format ++ " to string")))
    | .ok sha => convertSHAs w branchSHAs rest (shas ++ [sha]) (tr ++ [Event.asString unk])

/-- Lines 95-119 of `Run`: fill `SHAs` and `BaseBranch` from `PULL_REFS` when one of them is
missing. An `err` of `some _` is an early return of `Run`. -/
def resolvePullRefs (w : World) (o : StepGitMergeOptions) : Outcome :=
  if o.SHAs.length = 0 ∨ o.BaseBranch = "" then
    let pullRefs := w.getenv "PULL_REFS"
    if pullRefs ≠ "" then
      let tr := [Event.getenv "PULL_REFS",
                 Event.infof ("Using SHAs from PULL_REFS=" ++ pullRefs ++ "\n"),
                 Event.parsePullRefs pullRefs]
      match w.ParsePullRefs pullRefs with
      | .error err => ⟨o, tr, some (GoError.wrapf err ("parsing PULL_REFS=" ++ pullRefs))⟩
      | .ok branchSHAs =>
        let r := if o.SHAs.length = 0 then convertSHAs w branchSHAs branchSHAs.Keys [] tr
                 else (o.SHAs, tr, none)
        match r with
        | (shas, tr, some err) => ⟨{ o with SHAs := shas }, tr, some err⟩
        | (shas, tr, none) =>
          let o := { o with SHAs := shas }
          if o.BaseBranch = "" ∧ branchSHAs.Keys.length > 0 then
            ⟨{ o with BaseBranch := branchSHAs.Keys.headD "" }, tr, none⟩
          else
            ⟨o, tr, none⟩
    else
      ⟨o, [Event.getenv "PULL_REFS"], none⟩
  else
    ⟨o, [], none⟩

/-- Lines 120-126 of `Run`: the `BRANCH_NAME` fallback, the check for SHAs, and the call of the
merge collaborator, whose result is the result of `Run`. -/
def mergeResolved (w : World) (o : StepGitMergeOptions) (tr : List Event) : Outcome :=
  let r : StepGitMergeOptions × List Event :=
    if o.BaseBranch = "" then
      ({ o with BaseBranch := w.getenv "BRANCH_NAME" }, tr ++ [Event.getenv "BRANCH_NAME"])
    else (o, tr)
  if r.1.SHAs.length = 0 then
    ⟨r.1, r.2, some (GoError.errorf "no SHAs to merge")⟩
  else
    ⟨r.1, r.2 ++ [Event.fetchAndMergeSHAs r.1.SHAs r.1.BaseBranch r.1.BaseSHA r.1.Remote r.1.Dir],
      w.FetchAndMergeSHAs r.1.SHAs r.1.BaseBranch r.1.BaseSHA r.1.Remote r.1.Dir⟩

/-- `StepGitMergeOptions.Run` (lines 94-127). -/
def Run (w : World) (o : StepGitMergeOptions) : Outcome :=
  match resolvePullRefs w o with
  | ⟨o1, tr, some err⟩ => ⟨o1, tr, some err⟩
  | ⟨o1, tr, none⟩ => mergeResolved w o1 tr

/-! ## The flag set -/

/-- The options before any flag is read: the defaults registered at lines 81-88
(`--sha` empty, `--remote` "origin", `--dir`, `--baseBranch` and `--baseSHA` empty). -/
def flagDefaults : StepGitMergeOptions :=
  { SHAs := [], Remote := "origin", Dir := "", BaseBranch := "", BaseSHA := "" }

/-- One occurrence `--name value` on the command line: `--sha` is repeatable and appends,
the four string flags overwrite, an unregistered flag is refused. -/
def applyFlag (o : StepGitMergeOptions) (name value : String) : Option StepGitMergeOptions :=
  if name = "sha" then some { o with SHAs := o.SHAs ++ [value] }
  else if name = "remote" then some { o with Remote := value }
  else if name = "dir" then some { o with Dir := value }
  else if name = "baseBranch" then some { o with BaseBranch := value }
  else if name = "baseSHA" then some { o with BaseSHA := value }
  else none

/-- The flags of a command line, applied from left to right. -/
def parseFlags : List (String × String) → StepGitMergeOptions → Option StepGitMergeOptions
  | [], o => some o
  | (name, value) :: rest, o =>
    match applyFlag o name value with
    | some o1 => parseFlags rest o1
    | none => none

/-- `NewCmdStepGitMerge` (lines 57-91): the options the command hands to `Run` for a given
command line, or `none` when a flag is not one of the five registered ones. -/
def NewCmdStepGitMerge (flags : List (String × String)) : Option StepGitMergeOptions :=
  parseFlags flags flagDefaults

/-! ## Auxiliary definitions for the proofs -/

/-- The three events between reading a non-empty `PULL_REFS` and the outcome of parsing it. -/
def pullRefsEvents (pullRefs : String) : List Event :=
  [Event.getenv "PULL_REFS",
   Event.infof ("Using SHAs from PULL_REFS=" ++ pullRefs ++ "\n"),
   Event.parsePullRefs pullRefs]

/-- The base branch after line 120-122: `BRANCH_NAME` when it was still empty. -/
def branchFallback (w : World) (o : StepGitMergeOptions) : String :=
  if o.BaseBranch = "" then w.getenv "BRANCH_NAME" else o.BaseBranch

/-- The events of lines 120-122: `BRANCH_NAME` is read only when the base branch is empty. -/
def branchEvents (o : StepGitMergeOptions) : List Event :=
  if o.BaseBranch = "" then [Event.getenv "BRANCH_NAME"] else []

/-- What every outcome of `Run` started on `o0` satisfies: either the merge collaborator was
not called and `Run` returned a wrapped error or "no SHAs to merge", or it was called exactly
once, with the resolved options, and its result is the result of `Run`. -/
def MergeSpec (w : World) (o0 : StepGitMergeOptions) (r : Outcome) : Prop :=
  (r.trace.filter Event.isMerge = [] ∧
    ((∃ c msg, r.err = some (GoError.wrapf c msg)) ∨
      (r.err = some (GoError.errorf "no SHAs to merge") ∧ r.o.SHAs = []))) ∨
  (r.o.SHAs ≠ [] ∧
    r.trace.filter Event.isMerge
      = [Event.fetchAndMergeSHAs r.o.SHAs r.o.BaseBranch o0.BaseSHA o0.Remote o0.Dir] ∧
    r.err = w.FetchAndMergeSHAs r.o.SHAs r.o.BaseBranch o0.BaseSHA o0.Remote o0.Dir ∧
    (r.o.BaseBranch = "" → o0.BaseBranch = "" ∧ w.getenv "BRANCH_NAME" = ""))

/-! ## Sample collaborators -/

/-- Split a character list at every occurrence of a separator (Go's `strings.Split`). -/
def splitOnChar (sep : Char) : List Char → List (List Char)
  | [] => [[]]
  | c :: cs =>
    if c = sep then [] :: splitOnChar sep cs
    else
      match splitOnChar sep cs with
      | [] => [[c]]
      | h :: t => (c :: h) :: t

/-- The entries of a `PULL_REFS` value, inserted from left to right; an entry that is not
exactly `branch:sha` is a parse error. -/
def parseEntries : List (List Char) → OrderedMap → Except GoError OrderedMap
  | [], answer => .ok answer
  | kv :: rest, answer =>
    match splitOnChar ':' kv with
    | [branch, sha] =>
      parseEntries rest (answer.Set (String.mk branch) (Value.str (String.mk sha)))
    | _ => .error (GoError.errorf ("incorrect format for branch:sha " ++ String.mk kv))

/-- Modelled from the spec: `prow.ParsePullRefs`, which is not in `step_git_merge.go`: a
comma-separated list of `branch:sha` pairs becomes an ordered mapping from branch to commit in
first-seen key order, and a pair without its colon separator is a parse error. -/
def ParsePullRefs (pullRefs : String) : Except GoError OrderedMap :=
  parseEntries (splitOnChar ',' pullRefs.toList) OrderedMap.New

/-- Modelled from the spec: `util.AsString`, which is not in `step_git_merge.go`: a string
converts to itself and any other value is a conversion error. -/
def AsString : Value → Except GoError String
  | .str s => .ok s
  | v => .error (GoError.errorf ("unable to convert " ++ v.format ++ " to a string"))

/-- A process environment in which only `PULL_REFS` and `BRANCH_NAME` may be set. -/
def processEnv (pullRefs branchName : String) : String → String :=
  fun name =>
    if name = "PULL_REFS" then pullRefs
    else if name = "BRANCH_NAME" then branchName
    else ""

/-- A world with the given `PULL_REFS` and `BRANCH_NAME`, the sample parser and converter,
and a merge collaborator that returns the given result. -/
def sampleWorld (pullRefs branchName : String) (mergeResult : Option GoError) : World :=
  { getenv := processEnv pullRefs branchName
    ParsePullRefs := ParsePullRefs
    AsString := AsString
    FetchAndMergeSHAs := fun _ _ _ _ _ => mergeResult }

/-! ## Lemmas on the conversion loop -/

theorem convertSHAs_trace (P : Event → Prop) (hP : ∀ v, P (Event.asString v)) (w : World)
    (m : OrderedMap) (ks : List String) :
    ∀ (shas : List String) (tr : List Event), (∀ e ∈ tr, P e) →
      ∀ e ∈ (convertSHAs w m ks shas tr).2.1, P e := by
  induction ks with
  | nil => intro shas tr htr; simpa [convertSHAs] using htr
  | cons k rest ih =>
    intro shas tr htr
    have htr2 : ∀ e ∈ tr ++ [Event.asString (m.Get k).1], P e := by
      intro e he
      rcases List.mem_append.1 he with h | h
      · exact htr e h
      · simp at h; subst h; exact hP _
    cases hc : w.AsString (m.Get k).1 with
    | error err => simpa [convertSHAs, hc] using htr2
    | ok sha => simpa [convertSHAs, hc] using ih (shas ++ [sha]) _ htr2

theorem convertSHAs_err_wrapf (w : World) (m : OrderedMap) (ks : List String) :
    ∀ (shas : List String) (tr : List Event) (e : GoError),
      (convertSHAs w m ks shas tr).2.2 = some e → ∃ c msg, e = GoError.wrapf c msg := by
  induction ks with
  | nil => intro shas tr e h; simp [convertSHAs] at h
  | cons k rest ih =>
    intro shas tr e h
    cases hc : w.AsString (m.Get k).1 with
    | error err =>
      simp [convertSHAs, hc] at h
      exact ⟨_, _, h.symm⟩
    | ok sha =>
      simp [convertSHAs, hc] at h
      exact ih _ _ e h

theorem convertSHAs_length (w : World) (m : OrderedMap) (ks : List String) :
    ∀ (shas : List String) (tr : List Event),
      (convertSHAs w m ks shas tr).2.2 = none →
        (convertSHAs w m ks shas tr).1.length = shas.length + ks.length := by
  induction ks with
  | nil => intro shas tr _; simp [convertSHAs]
  | cons k rest ih =>
    intro shas tr h
    cases hc : w.AsString (m.Get k).1 with
    | error err => simp [convertSHAs, hc] at h
    | ok sha =>
      simp [convertSHAs, hc] at h ⊢
      rw [ih _ _ h]; simp; omega

theorem convertSHAs_strings (w : World) (m : OrderedMap)
    (hconv : ∀ s, w.AsString (Value.str s) = Except.ok s) (ks : List String) :
    ∀ (shas : List String) (tr : List Event),
      (∀ k ∈ ks, ∃ s, (m.Get k).1 = Value.str s) →
        (convertSHAs w m ks shas tr).2.2 = none ∧
        (convertSHAs w m ks shas tr).1.map Value.str
          = shas.map Value.str ++ ks.map (fun k => (m.Get k).1) := by
  induction ks with
  | nil => intro shas tr _; simp [convertSHAs]
  | cons k rest ih =>
    intro shas tr hall
    obtain ⟨s, hs⟩ := hall k (List.mem_cons_self _ _)
    have hrest : ∀ k ∈ rest, ∃ s, (m.Get k).1 = Value.str s :=
      fun k hk => hall k (List.mem_cons_of_mem _ hk)
    have hc : w.AsString (m.Get k).1 = Except.ok s := by rw [hs]; exact hconv s
    obtain ⟨h1, h2⟩ := ih (shas ++ [s]) (tr ++ [Event.asString (m.Get k).1]) hrest
    simp only [convertSHAs, hc]
    refine ⟨h1, ?_⟩
    rw [h2]; simp [hs]

theorem pullRefsEvents_no_merge (p : String) : ∀ e ∈ pullRefsEvents p, e.isMerge = false := by
  intro e he
  simp [pullRefsEvents] at he
  rcases he with h | h | h <;> subst h <;> rfl

theorem pullRefsEvents_no_branch_name (p : String) :
    Event.getenv "BRANCH_NAME" ∉ pullRefsEvents p := by
  simp [pullRefsEvents]

/-! ## The paths through `Run` -/

theorem Run_flags (w : World) (o : StepGitMergeOptions) (hs : o.SHAs ≠ [])
    (hb : o.BaseBranch ≠ "") :
    Run w o = ⟨o, [Event.fetchAndMergeSHAs o.SHAs o.BaseBranch o.BaseSHA o.Remote o.Dir],
      w.FetchAndMergeSHAs o.SHAs o.BaseBranch o.BaseSHA o.Remote o.Dir⟩ := by
  simp [Run, resolvePullRefs, mergeResolved, hs, hb]

theorem Run_no_pull_refs (w : World) (o : StepGitMergeOptions)
    (h : o.SHAs = [] ∨ o.BaseBranch = "") (hp : w.getenv "PULL_REFS" = "") :
    Run w o = mergeResolved w o [Event.getenv "PULL_REFS"] := by
  simp [Run, resolvePullRefs, h, hp]

theorem Run_parse_error (w : World) (o : StepGitMergeOptions)
    (h : o.SHAs = [] ∨ o.BaseBranch = "") (hp : w.getenv "PULL_REFS" ≠ "") (perr : GoError)
    (he : w.ParsePullRefs (w.getenv "PULL_REFS") = Except.error perr) :
    Run w o = ⟨o, pullRefsEvents (w.getenv "PULL_REFS"),
      some (GoError.wrapf perr ("parsing PULL_REFS=" ++ w.getenv "PULL_REFS"))⟩ := by
  simp [Run, resolvePullRefs, h, hp, he, pullRefsEvents]

theorem Run_base_from_pull_refs (w : World) (o : StepGitMergeOptions) (hs : o.SHAs ≠ [])
    (hb : o.BaseBranch = "") (hp : w.getenv "PULL_REFS" ≠ "") (m : OrderedMap)
    (hm : w.ParsePullRefs (w.getenv "PULL_REFS") = Except.ok m) :
    Run w o = mergeResolved w { o with BaseBranch := m.Keys.headD "" }
      (pullRefsEvents (w.getenv "PULL_REFS")) := by
  cases hk : m.Keys with
  | nil =>
    have : ({ o with BaseBranch := "" } : StepGitMergeOptions) = o := by
      cases o; simp_all
    simp [Run, resolvePullRefs, hs, hb, hp, hm, hk, pullRefsEvents, this]
  | cons k rest =>
    simp [Run, resolvePullRefs, hs, hb, hp, hm, hk, pullRefsEvents]

theorem Run_shas_from_pull_refs (w : World) (o : StepGitMergeOptions) (hs : o.SHAs = [])
    (hp : w.getenv "PULL_REFS" ≠ "") (m : OrderedMap)
    (hm : w.ParsePullRefs (w.getenv "PULL_REFS") = Except.ok m) :
    (∀ e, (convertSHAs w m m.Keys [] (pullRefsEvents (w.getenv "PULL_REFS"))).2.2 = some e →
      Run w o =
        ⟨{ o with SHAs := (convertSHAs w m m.Keys [] (pullRefsEvents (w.getenv "PULL_REFS"))).1 },
          (convertSHAs w m m.Keys [] (pullRefsEvents (w.getenv "PULL_REFS"))).2.1, some e⟩) ∧
    ((convertSHAs w m m.Keys [] (pullRefsEvents (w.getenv "PULL_REFS"))).2.2 = none →
      Run w o = mergeResolved w
        { o with
          SHAs := (convertSHAs w m m.Keys [] (pullRefsEvents (w.getenv "PULL_REFS"))).1
          BaseBranch := if o.BaseBranch = "" then m.Keys.headD "" else o.BaseBranch }
        (convertSHAs w m m.Keys [] (pullRefsEvents (w.getenv "PULL_REFS"))).2.1) := by
  have hev : [Event.getenv "PULL_REFS",
      Event.infof ("Using SHAs from PULL_REFS=" ++ w.getenv "PULL_REFS" ++ "\n"),
      Event.parsePullRefs (w.getenv "PULL_REFS")] = pullRefsEvents (w.getenv "PULL_REFS") := rfl
  rcases hc : convertSHAs w m m.Keys [] (pullRefsEvents (w.getenv "PULL_REFS"))
    with ⟨shas, tr, _ | e⟩
  · refine ⟨by simp, fun _ => ?_⟩
    by_cases hb : o.BaseBranch = ""
    · cases hk : m.Keys with
      | nil => rw [hk] at hc; simp [Run, resolvePullRefs, hs, hp, hm, hev, hc, hb, hk]
      | cons k rest => rw [hk] at hc; simp [Run, resolvePullRefs, hs, hp, hm, hev, hc, hb, hk]
    · simp [Run, resolvePullRefs, hs, hp, hm, hev, hc, hb]
  · refine ⟨fun e2 he2 => ?_, by simp⟩
    simp at he2
    subst he2
    simp [Run, resolvePullRefs, hs, hp, hm, hev, hc]

theorem mergeResolved_nil (w : World) (o : StepGitMergeOptions) (tr : List Event)
    (hs : o.SHAs = []) :
    mergeResolved w o tr =
      ⟨{ o with BaseBranch := branchFallback w o }, tr ++ branchEvents o,
        some (GoError.errorf "no SHAs to merge")⟩ := by
  by_cases hb : o.BaseBranch = ""
  · simp [mergeResolved, branchFallback, branchEvents, hs, hb]
  · cases o with
    | mk S R D B BS =>
      simp only at hs hb
      subst hs
      simp [mergeResolved, branchFallback, branchEvents, hb]

theorem mergeResolved_cons (w : World) (o : StepGitMergeOptions) (tr : List Event)
    (hs : o.SHAs ≠ []) :
    mergeResolved w o tr =
      ⟨{ o with BaseBranch := branchFallback w o },
        tr ++ branchEvents o ++
          [Event.fetchAndMergeSHAs o.SHAs (branchFallback w o) o.BaseSHA o.Remote o.Dir],
        w.FetchAndMergeSHAs o.SHAs (branchFallback w o) o.BaseSHA o.Remote o.Dir⟩ := by
  by_cases hb : o.BaseBranch = ""
  · simp [mergeResolved, branchFallback, branchEvents, hs, hb]
  · simp [mergeResolved, branchFallback, branchEvents, hs, hb]

theorem branchEvents_no_merge (o : StepGitMergeOptions) :
    ∀ e ∈ branchEvents o, e.isMerge = false := by
  intro e he
  unfold branchEvents at he
  split at he
  · simp at he; subst he; rfl
  · simp at he

theorem filter_isMerge_nil (tr : List Event) (h : ∀ e ∈ tr, e.isMerge = false) :
    tr.filter Event.isMerge = [] := by
  induction tr with
  | nil => rfl
  | cons a t ih =>
    have ha : a.isMerge = false := h a (List.mem_cons_self _ _)
    have ht := ih (fun e he => h e (List.mem_cons_of_mem _ he))
    simp [List.filter, ha, ht]

theorem mergeResolved_spec (w : World) (o0 o : StepGitMergeOptions) (tr : List Event)
    (htr : ∀ e ∈ tr, e.isMerge = false) (hR : o.Remote = o0.Remote) (hD : o.Dir = o0.Dir)
    (hS : o.BaseSHA = o0.BaseSHA) (hB : o.BaseBranch = "" → o0.BaseBranch = "") :
    MergeSpec w o0 (mergeResolved w o tr) := by
  by_cases hs : o.SHAs = []
  · left
    rw [mergeResolved_nil w o tr hs]
    refine ⟨?_, Or.inr ⟨rfl, hs⟩⟩
    apply filter_isMerge_nil
    intro e he
    rcases List.mem_append.1 he with h | h
    · exact htr e h
    · exact branchEvents_no_merge o e h
  · right
    rw [mergeResolved_cons w o tr hs]
    refine ⟨hs, ?_, ?_, ?_⟩
    · have h1 : (tr ++ branchEvents o).filter Event.isMerge = [] := by
        apply filter_isMerge_nil
        intro e he
        rcases List.mem_append.1 he with h | h
        · exact htr e h
        · exact branchEvents_no_merge o e h
      rw [List.filter_append, h1]
      simp [Event.isMerge, hR, hD, hS]
    · simp [hR, hD, hS]
    · intro hbb
      simp only [branchFallback] at hbb
      by_cases hb : o.BaseBranch = ""
      · rw [if_pos hb] at hbb
        exact ⟨hB hb, hbb⟩
      · rw [if_neg hb] at hbb
        exact absurd hbb hb

theorem Run_spec (w : World) (o : StepGitMergeOptions) : MergeSpec w o (Run w o) := by
  by_cases hs : o.SHAs = []
  · by_cases hp : w.getenv "PULL_REFS" = ""
    · rw [Run_no_pull_refs w o (Or.inl hs) hp]
      exact mergeResolved_spec w o o _ (by simp [Event.isMerge]) rfl rfl rfl id
    · cases hm : w.ParsePullRefs (w.getenv "PULL_REFS") with
      | error perr =>
        rw [Run_parse_error w o (Or.inl hs) hp perr hm]
        exact Or.inl ⟨filter_isMerge_nil _ (pullRefsEvents_no_merge _), Or.inl ⟨_, _, rfl⟩⟩
      | ok m =>
        obtain ⟨hE, hN⟩ := Run_shas_from_pull_refs w o hs hp m hm
        have hnm := convertSHAs_trace (fun e => e.isMerge = false) (fun _ => rfl) w m m.Keys []
          (pullRefsEvents (w.getenv "PULL_REFS")) (pullRefsEvents_no_merge _)
        cases hc : (convertSHAs w m m.Keys [] (pullRefsEvents (w.getenv "PULL_REFS"))).2.2 with
        | some e =>
          rw [hE e hc]
          obtain ⟨c, msg, hw⟩ := convertSHAs_err_wrapf w m m.Keys _ _ e hc
          exact Or.inl ⟨filter_isMerge_nil _ hnm, Or.inl ⟨c, msg, by rw [hw]⟩⟩
        | none =>
          rw [hN hc]
          refine mergeResolved_spec w o _ _ hnm rfl rfl rfl ?_
          intro hb
          by_cases hb0 : o.BaseBranch = ""
          · exact hb0
          · simp only [if_neg hb0] at hb
            exact absurd hb hb0
  · by_cases hb : o.BaseBranch = ""
    · by_cases hp : w.getenv "PULL_REFS" = ""
      · rw [Run_no_pull_refs w o (Or.inr hb) hp]
        exact mergeResolved_spec w o o _ (by simp [Event.isMerge]) rfl rfl rfl id
      · cases hm : w.ParsePullRefs (w.getenv "PULL_REFS") with
        | error perr =>
          rw [Run_parse_error w o (Or.inr hb) hp perr hm]
          exact Or.inl ⟨filter_isMerge_nil _ (pullRefsEvents_no_merge _), Or.inl ⟨_, _, rfl⟩⟩
        | ok m =>
          rw [Run_base_from_pull_refs w o hs hb hp m hm]
          exact mergeResolved_spec w o _ _ (pullRefsEvents_no_merge _) rfl rfl rfl (fun _ => hb)
    · rw [Run_flags w o hs hb]
      refine Or.inr ⟨hs, by simp [Event.isMerge], rfl, fun h => absurd h hb⟩

theorem merge_mem_filter (tr : List Event) (shas : List String) (bb bs r d : String)
    (h : Event.fetchAndMergeSHAs shas bb bs r d ∈ tr) :
    Event.fetchAndMergeSHAs shas bb bs r d ∈ tr.filter Event.isMerge :=
  List.mem_filter.2 ⟨h, rfl⟩

/-- A call of the merge collaborator in the trace of `Run` is the only one, carries the
resolved options, and its result is the result of `Run`. -/
theorem Run_merge_event (w : World) (o : StepGitMergeOptions) (shas : List String)
    (bb bs r d : String) (h : Event.fetchAndMergeSHAs shas bb bs r d ∈ (Run w o).trace) :
    (Run w o).trace.filter Event.isMerge = [Event.fetchAndMergeSHAs shas bb bs r d] ∧
    (Run w o).err = w.FetchAndMergeSHAs shas bb bs r d ∧
    shas = (Run w o).o.SHAs ∧ shas ≠ [] ∧ bb = (Run w o).o.BaseBranch ∧
    bs = o.BaseSHA ∧ r = o.Remote ∧ d = o.Dir ∧
    (bb = "" → o.BaseBranch = "" ∧ w.getenv "BRANCH_NAME" = "") := by
  have hf := merge_mem_filter _ _ _ _ _ _ h
  rcases Run_spec w o with ⟨hnil, _⟩ | ⟨hne, hfil, herr, hbb⟩
  · rw [hnil] at hf; simp at hf
  · rw [hfil] at hf
    simp at hf
    obtain ⟨h1, h2, h3, h4, h5⟩ := hf
    subst h1 h2 h3 h4 h5
    exact ⟨hfil, herr, rfl, hne, rfl, rfl, rfl, rfl, hbb⟩

theorem mergeResolved_o (w : World) (o : StepGitMergeOptions) (tr : List Event) :
    (mergeResolved w o tr).o = { o with BaseBranch := branchFallback w o } := by
  by_cases hs : o.SHAs = []
  · rw [mergeResolved_nil w o tr hs]
  · rw [mergeResolved_cons w o tr hs]

theorem mergeResolved_no_branch_name (w : World) (o : StepGitMergeOptions) (tr : List Event)
    (hb : o.BaseBranch ≠ "") (htr : Event.getenv "BRANCH_NAME" ∉ tr) :
    Event.getenv "BRANCH_NAME" ∉ (mergeResolved w o tr).trace := by
  have hbe : branchEvents o = [] := by simp [branchEvents, hb]
  by_cases hs : o.SHAs = []
  · rw [mergeResolved_nil w o tr hs, hbe]
    simpa using htr
  · rw [mergeResolved_cons w o tr hs, hbe]
    simpa using htr

theorem Run_no_branch_name (w : World) (o : StepGitMergeOptions) (m : OrderedMap)
    (h : o.SHAs = [] ∨ o.BaseBranch = "") (hp : w.getenv "PULL_REFS" ≠ "")
    (hm : w.ParsePullRefs (w.getenv "PULL_REFS") = Except.ok m)
    (hne : o.BaseBranch ≠ "" ∨ m.Keys.headD "" ≠ "") :
    Event.getenv "BRANCH_NAME" ∉ (Run w o).trace := by
  by_cases hs : o.SHAs = []
  · obtain ⟨hE, hN⟩ := Run_shas_from_pull_refs w o hs hp m hm
    have hnb : Event.getenv "BRANCH_NAME" ∉
        (convertSHAs w m m.Keys [] (pullRefsEvents (w.getenv "PULL_REFS"))).2.1 := by
      intro hmem
      exact convertSHAs_trace (fun e => e ≠ Event.getenv "BRANCH_NAME") (fun _ => by simp) w m
        m.Keys [] (pullRefsEvents (w.getenv "PULL_REFS"))
        (fun e he heq => pullRefsEvents_no_branch_name _ (heq ▸ he)) _ hmem rfl
    cases hc : (convertSHAs w m m.Keys [] (pullRefsEvents (w.getenv "PULL_REFS"))).2.2 with
    | some e =>
      rw [hE e hc]
      exact hnb
    | none =>
      rw [hN hc]
      apply mergeResolved_no_branch_name _ _ _ _ hnb
      by_cases hb : o.BaseBranch = ""
      · simp only [if_pos hb]
        rcases hne with h1 | h1
        · exact absurd hb h1
        · exact h1
      · simp only [if_neg hb]
        exact hb
  · have hb : o.BaseBranch = "" := h.resolve_left hs
    rw [Run_base_from_pull_refs w o hs hb hp m hm]
    apply mergeResolved_no_branch_name _ _ _ _ (pullRefsEvents_no_branch_name _)
    rcases hne with h1 | h1
    · exact absurd hb h1
    · exact h1

theorem mergeResolved_merge (w : World) (o : StepGitMergeOptions) (tr : List Event)
    (htr : ∀ e ∈ tr, e.isMerge = false) (hs : o.SHAs ≠ []) :
    (mergeResolved w o tr).trace.filter Event.isMerge
      = [Event.fetchAndMergeSHAs o.SHAs (branchFallback w o) o.BaseSHA o.Remote o.Dir] ∧
    (mergeResolved w o tr).err
      = w.FetchAndMergeSHAs o.SHAs (branchFallback w o) o.BaseSHA o.Remote o.Dir := by
  rw [mergeResolved_cons w o tr hs]
  refine ⟨?_, rfl⟩
  have h1 : (tr ++ branchEvents o).filter Event.isMerge = [] := by
    apply filter_isMerge_nil
    intro e he
    rcases List.mem_append.1 he with h | h
    · exact htr e h
    · exact branchEvents_no_merge o e h
  show List.filter Event.isMerge (tr ++ branchEvents o ++ _) = _
  rw [List.filter_append, h1]
  simp [Event.isMerge]

theorem parseFlags_frame (flags : List (String × String)) :
    ∀ (o o1 : StepGitMergeOptions), parseFlags flags o = some o1 →
      (∀ f ∈ flags, f.1 ≠ "remote" ∧ f.1 ≠ "dir" ∧ f.1 ≠ "baseSHA") →
      o1.Remote = o.Remote ∧ o1.Dir = o.Dir ∧ o1.BaseSHA = o.BaseSHA := by
  induction flags with
  | nil =>
    intro o o1 h _
    simp [parseFlags] at h
    subst h
    exact ⟨rfl, rfl, rfl⟩
  | cons f rest ih =>
    intro o o1 h hf
    obtain ⟨name, value⟩ := f
    obtain ⟨h1, h2, h3⟩ := hf (name, value) (List.mem_cons_self _ _)
    have hrest : ∀ f ∈ rest, f.1 ≠ "remote" ∧ f.1 ≠ "dir" ∧ f.1 ≠ "baseSHA" :=
      fun f hf2 => hf f (List.mem_cons_of_mem _ hf2)
    simp only at h1 h2 h3
    cases ha : applyFlag o name value with
    | none => simp [parseFlags, ha] at h
    | some o2 =>
      simp only [parseFlags, ha] at h
      obtain ⟨r1, r2, r3⟩ := ih o2 o1 h hrest
      have hfr : o2.Remote = o.Remote ∧ o2.Dir = o.Dir ∧ o2.BaseSHA = o.BaseSHA := by
        unfold applyFlag at ha
        simp only [if_neg h1, if_neg h2, if_neg h3] at ha
        split at ha
        · simp at ha; subst ha; exact ⟨rfl, rfl, rfl⟩
        · split at ha
          · simp at ha; subst ha; exact ⟨rfl, rfl, rfl⟩
          · simp at ha
      exact ⟨r1.trans hfr.1, r2.trans hfr.2.1, r3.trans hfr.2.2⟩

/-- The arguments of a merge call in the trace of `Run`, in terms of the inputs: flag SHAs are
passed unchanged, a flag base branch is passed unchanged, and an empty one is the first key of
`PULL_REFS` unless that is missing or empty, in which case it is `BRANCH_NAME`. -/
theorem Run_merge_resolved (w : World) (o : StepGitMergeOptions) (shas : List String)
    (bb bs r d : String) (h : Event.fetchAndMergeSHAs shas bb bs r d ∈ (Run w o).trace) :
    (o.SHAs ≠ [] → shas = o.SHAs) ∧
    (o.BaseBranch ≠ "" → bb = o.BaseBranch) ∧
    (o.BaseBranch = "" → w.getenv "PULL_REFS" = "" → bb = w.getenv "BRANCH_NAME") ∧
    (o.BaseBranch = "" → w.getenv "PULL_REFS" ≠ "" →
      ∃ m, w.ParsePullRefs (w.getenv "PULL_REFS") = Except.ok m ∧
        bb = if m.Keys.headD "" = "" then w.getenv "BRANCH_NAME" else m.Keys.headD "") := by
  obtain ⟨_, _, hS, _, hB, _, _, _, _⟩ := Run_merge_event w o shas bb bs r d h
  have hnoPR : ∀ p, Event.fetchAndMergeSHAs shas bb bs r d ∉ pullRefsEvents p := by
    intro p hmem
    have := pullRefsEvents_no_merge p _ hmem
    simp [Event.isMerge] at this
  by_cases hs : o.SHAs = []
  · by_cases hp : w.getenv "PULL_REFS" = ""
    · rw [Run_no_pull_refs w o (Or.inl hs) hp, mergeResolved_o] at hS hB
      simp only [branchFallback] at hB
      refine ⟨fun h0 => absurd hs h0, ?_, ?_, fun _ h0 => absurd hp h0⟩
      · intro hb; rw [hB, if_neg hb]
      · intro hb _; rw [hB, if_pos hb]
    · cases hm : w.ParsePullRefs (w.getenv "PULL_REFS") with
      | error perr =>
        rw [Run_parse_error w o (Or.inl hs) hp perr hm] at h
        exact absurd h (hnoPR _)
      | ok m =>
        obtain ⟨hE, hN⟩ := Run_shas_from_pull_refs w o hs hp m hm
        have hnm := convertSHAs_trace (fun e => e.isMerge = false) (fun _ => rfl) w m m.Keys []
          (pullRefsEvents (w.getenv "PULL_REFS")) (pullRefsEvents_no_merge _)
        cases hc : (convertSHAs w m m.Keys [] (pullRefsEvents (w.getenv "PULL_REFS"))).2.2 with
        | some e =>
          rw [hE e hc] at h
          have := hnm _ h
          simp [Event.isMerge] at this
        | none =>
          rw [hN hc, mergeResolved_o] at hB
          simp only [branchFallback] at hB
          refine ⟨fun h0 => absurd hs h0, ?_, fun _ h0 => absurd h0 hp, ?_⟩
          · intro hb
            rw [hB, if_neg hb, if_neg hb]
          · intro hb _
            refine ⟨m, rfl, ?_⟩
            rw [hB, if_pos hb]
  · by_cases hb : o.BaseBranch = ""
    · by_cases hp : w.getenv "PULL_REFS" = ""
      · rw [Run_no_pull_refs w o (Or.inr hb) hp, mergeResolved_o] at hS hB
        simp only [branchFallback, if_pos hb] at hB
        exact ⟨fun _ => hS, fun h0 => absurd hb h0, fun _ _ => hB, fun _ h0 => absurd hp h0⟩
      · cases hm : w.ParsePullRefs (w.getenv "PULL_REFS") with
        | error perr =>
          rw [Run_parse_error w o (Or.inr hb) hp perr hm] at h
          exact absurd h (hnoPR _)
        | ok m =>
          rw [Run_base_from_pull_refs w o hs hb hp m hm, mergeResolved_o] at hS hB
          simp only [branchFallback] at hB
          exact ⟨fun _ => hS, fun h0 => absurd hb h0, fun _ h0 => absurd h0 hp,
            fun _ _ => ⟨m, rfl, hB⟩⟩
    · rw [Run_flags w o hs hb] at hS hB
      exact ⟨fun _ => hS, fun _ => hB, fun h0 => absurd h0 hb, fun h0 => absurd h0 hb⟩

/-! ## The claims -/

/-- C1: when the SHAs option and the BaseBranch option are both non-empty, the only effect of
`Run` is one call of the merge collaborator with the SHAs and the base branch of the options:
`PULL_REFS` is not read, the parser is not called whatever the environment holds, and the result
of `Run` is the collaborator's result (so no parse error). -/
theorem flags_given_pull_refs_not_consulted (w : World) (o : StepGitMergeOptions)
    (hs : o.SHAs ≠ []) (hb : o.BaseBranch ≠ "") :
    (Run w o).trace = [Event.fetchAndMergeSHAs o.SHAs o.BaseBranch o.BaseSHA o.Remote o.Dir] ∧
    Event.getenv "PULL_REFS" ∉ (Run w o).trace ∧
    (∀ raw, Event.parsePullRefs raw ∉ (Run w o).trace) ∧
    (Run w o).err = w.FetchAndMergeSHAs o.SHAs o.BaseBranch o.BaseSHA o.Remote o.Dir := by
  rw [Run_flags w o hs hb]
  simp

/-- Witness of C1: `--sha A --sha B --baseBranch main` with a `PULL_REFS` the parser rejects. -/
theorem flags_given_pull_refs_not_consulted_witness :
    ParsePullRefs "no-colon" = Except.error (GoError.errorf "incorrect format for branch:sha no-colon") ∧
    (Run (sampleWorld "no-colon" "dev" none) ⟨["A", "B"], "origin", "", "main", ""⟩).trace
      = [Event.fetchAndMergeSHAs ["A", "B"] "main" "" "origin" ""] ∧
    (Run (sampleWorld "no-colon" "dev" none) ⟨["A", "B"], "origin", "", "main", ""⟩).err = none :=
  ⟨rfl,
   (flags_given_pull_refs_not_consulted (sampleWorld "no-colon" "dev" none)
      ⟨["A", "B"], "origin", "", "main", ""⟩ (by decide) (by decide)).1,
   (flags_given_pull_refs_not_consulted (sampleWorld "no-colon" "dev" none)
      ⟨["A", "B"], "origin", "", "main", ""⟩ (by decide) (by decide)).2.2.2⟩

/-- C4: when the SHAs option or the BaseBranch option is empty and `PULL_REFS` is non-empty and
rejected by the parser, `Run` returns the parser's error wrapped with the message
"parsing PULL_REFS=" followed by the raw value, and the merge collaborator is not called. -/
theorem parse_error_wrapped (w : World) (o : StepGitMergeOptions)
    (h : o.SHAs = [] ∨ o.BaseBranch = "") (hp : w.getenv "PULL_REFS" ≠ "") (perr : GoError)
    (he : w.ParsePullRefs (w.getenv "PULL_REFS") = Except.error perr) :
    (Run w o).err
      = some (GoError.wrapf perr ("parsing PULL_REFS=" ++ w.getenv "PULL_REFS")) ∧
    (∃ e, (Run w o).err = some e ∧ e.Cause = some perr ∧
      e.Error = "parsing PULL_REFS=" ++ w.getenv "PULL_REFS" ++ ": " ++ perr.Error) ∧
    (∀ e ∈ (Run w o).trace, e.isMerge = false) := by
  rw [Run_parse_error w o h hp perr he]
  exact ⟨rfl, ⟨_, rfl, rfl, rfl⟩, pullRefsEvents_no_merge _⟩

/-- Witness of C4: `--sha X` given by flag, `BRANCH_NAME` set, and a `PULL_REFS` without
colon. -/
theorem parse_error_wrapped_witness :
    (Run (sampleWorld "master" "dev" none) ⟨["X"], "origin", "", "", ""⟩).err
      = some (GoError.wrapf (GoError.errorf "incorrect format for branch:sha master")
          "parsing PULL_REFS=master") :=
  (parse_error_wrapped (sampleWorld "master" "dev" none) ⟨["X"], "origin", "", "", ""⟩
    (Or.inr rfl) (by decide) (GoError.errorf "incorrect format for branch:sha master")
    rfl).1

/-- C5, as stated, fails: with `--sha X`, no `PULL_REFS` and no `BRANCH_NAME`, the merge
collaborator is called with an empty base branch. -/
theorem merge_base_branch_empty_counterexample :
    (Run (sampleWorld "" "" none) ⟨["X"], "origin", "", "", ""⟩).trace
      = [Event.getenv "PULL_REFS", Event.getenv "BRANCH_NAME",
         Event.fetchAndMergeSHAs ["X"] "" "" "origin" ""] := by
  decide

/-- C5, amended: whenever `Run` calls the merge collaborator, the SHA list it passes is
non-empty; the base branch it passes is empty exactly when the BaseBranch option is empty,
`BRANCH_NAME` is empty, and `PULL_REFS` supplies no non-empty first key (it is empty, or it
parses to a mapping that has no key or whose first key is the empty string); in every other
case the base branch is non-empty. -/
theorem merge_shas_nonempty (w : World) (o : StepGitMergeOptions) (shas : List String)
    (bb bs r d : String) (h : Event.fetchAndMergeSHAs shas bb bs r d ∈ (Run w o).trace) :
    shas ≠ [] ∧
    (bb = "" ↔
      (o.BaseBranch = "" ∧ w.getenv "BRANCH_NAME" = "" ∧
        (w.getenv "PULL_REFS" = "" ∨
          ∃ m, w.ParsePullRefs (w.getenv "PULL_REFS") = Except.ok m ∧
            m.Keys.headD "" = ""))) := by
  obtain ⟨_, _, _, hne, _, _, _, _, hbb⟩ := Run_merge_event w o shas bb bs r d h
  obtain ⟨_, hflag, hbn, hkey⟩ := Run_merge_resolved w o shas bb bs r d h
  refine ⟨hne, ⟨fun hb => ?_, fun hr => ?_⟩⟩
  · obtain ⟨h1, h2⟩ := hbb hb
    refine ⟨h1, h2, ?_⟩
    by_cases hp : w.getenv "PULL_REFS" = ""
    · exact Or.inl hp
    · right
      obtain ⟨m, hm, hval⟩ := hkey h1 hp
      refine ⟨m, hm, ?_⟩
      by_cases hd : m.Keys.headD "" = ""
      · exact hd
      · rw [if_neg hd] at hval
        exact absurd (hval.symm.trans hb) hd
  · obtain ⟨h1, h2, h3⟩ := hr
    by_cases hp : w.getenv "PULL_REFS" = ""
    · rw [hbn h1 hp, h2]
    · obtain ⟨m, hm, hval⟩ := hkey h1 hp
      rcases h3 with h3 | ⟨m2, hm2, hd⟩
      · exact absurd h3 hp
      · rw [hm] at hm2
        have hmm : m = m2 := by injection hm2
        subst hmm
        rw [hval, if_pos hd, h2]

/-- Witness of C5 (amended): no flags, `PULL_REFS=master:aaa,42:bbb`, `BRANCH_NAME` unset: the
merge is called with the SHAs `aaa`, `bbb` and the base branch `master`, both non-empty. -/
theorem merge_shas_nonempty_witness :
    Event.fetchAndMergeSHAs ["aaa", "bbb"] "master" "" "origin" ""
      ∈ (Run (sampleWorld "master:aaa,42:bbb" "" none) flagDefaults).trace ∧
    (["aaa", "bbb"] : List String) ≠ [] ∧ ("master" : String) ≠ "" :=
  ⟨by decide,
   (merge_shas_nonempty (sampleWorld "master:aaa,42:bbb" "" none) flagDefaults
      ["aaa", "bbb"] "master" "" "origin" "" (by decide)).1,
   fun hb => by
    obtain ⟨_, _, hpr | ⟨m, hm, hd⟩⟩ :=
      (merge_shas_nonempty (sampleWorld "master:aaa,42:bbb" "" none) flagDefaults
        ["aaa", "bbb"] "master" "" "origin" "" (by decide)).2.1 hb
    · exact absurd hpr (by decide)
    · have hm2 : (Except.ok
          ⟨["master", "42"], [("42", Value.str "bbb"), ("master", Value.str "aaa")]⟩
            : Except GoError OrderedMap) = Except.ok m := hm
      injection hm2 with hm3
      subst hm3
      exact absurd hd (by decide)⟩

/-- C6: evaluation of `Run` with no flags and `PULL_REFS=master:aaa,42:bbb`: the first entry of
`PULL_REFS` is `master:aaa`, and the base SHA handed to the merge collaborator is the empty
string, not `aaa`. -/
theorem base_sha_not_taken_from_pull_refs :
    ParsePullRefs "master:aaa,42:bbb"
      = Except.ok ⟨["master", "42"], [("42", Value.str "bbb"), ("master", Value.str "aaa")]⟩ ∧
    (Run (sampleWorld "master:aaa,42:bbb" "" none) flagDefaults).trace.filter Event.isMerge
      = [Event.fetchAndMergeSHAs ["aaa", "bbb"] "master" "" "origin" ""] ∧
    (Run (sampleWorld "master:aaa,42:bbb" "" none) flagDefaults).o.BaseSHA = "" :=
  ⟨rfl, by decide, by decide⟩

/-- C7: the remote, directory and base SHA passed to the merge collaborator are the Remote, Dir
and BaseSHA options, whatever the environment and the collaborators; after a command line
without `--remote`, `--dir` and `--baseSHA` they are "origin", "" and "". -/
theorem merge_frame (w : World) (o : StepGitMergeOptions) :
    (∀ shas bb bs r d, Event.fetchAndMergeSHAs shas bb bs r d ∈ (Run w o).trace →
      r = o.Remote ∧ d = o.Dir ∧ bs = o.BaseSHA) ∧
    (∀ flags, NewCmdStepGitMerge flags = some o →
      (∀ f ∈ flags, f.1 ≠ "remote" ∧ f.1 ≠ "dir" ∧ f.1 ≠ "baseSHA") →
      ∀ shas bb bs r d, Event.fetchAndMergeSHAs shas bb bs r d ∈ (Run w o).trace →
        r = "origin" ∧ d = "" ∧ bs = "") := by
  have hA : ∀ shas bb bs r d, Event.fetchAndMergeSHAs shas bb bs r d ∈ (Run w o).trace →
      r = o.Remote ∧ d = o.Dir ∧ bs = o.BaseSHA := by
    intro shas bb bs r d h
    obtain ⟨_, _, _, _, _, h1, h2, h3, _⟩ := Run_merge_event w o shas bb bs r d h
    exact ⟨h2, h3, h1⟩
  refine ⟨hA, ?_⟩
  intro flags hf hno shas bb bs r d h
  obtain ⟨h1, h2, h3⟩ := hA shas bb bs r d h
  obtain ⟨f1, f2, f3⟩ := parseFlags_frame flags flagDefaults o hf hno
  rw [h1, h2, h3, f1, f2, f3]
  exact ⟨rfl, rfl, rfl⟩

/-- Witness of C7: the command line `--sha X --baseBranch main`. -/
theorem merge_frame_witness :
    NewCmdStepGitMerge [("sha", "X"), ("baseBranch", "main")]
      = some ⟨["X"], "origin", "", "main", ""⟩ ∧
    (Run (sampleWorld "master:aaa" "dev" none) ⟨["X"], "origin", "", "main", ""⟩).trace
      = [Event.fetchAndMergeSHAs ["X"] "main" "" "origin" ""] ∧
    (("origin" : String) = "origin" ∧ ("" : String) = "" ∧ ("" : String) = "") :=
  ⟨by decide, by decide,
   (merge_frame (sampleWorld "master:aaa" "dev" none) ⟨["X"], "origin", "", "main", ""⟩).2
     [("sha", "X"), ("baseBranch", "main")] (by decide) (by decide)
     ["X"] "main" "" "origin" "" (by decide)⟩

/-- C8: when `Run` calls the merge collaborator, it calls it exactly once, and the result of
`Run` is the result of that call, unchanged. -/
theorem merge_result_propagated (w : World) (o : StepGitMergeOptions) (shas : List String)
    (bb bs r d : String) (h : Event.fetchAndMergeSHAs shas bb bs r d ∈ (Run w o).trace) :
    (Run w o).trace.filter Event.isMerge = [Event.fetchAndMergeSHAs shas bb bs r d] ∧
    ((Run w o).trace.filter Event.isMerge).length = 1 ∧
    (Run w o).err = w.FetchAndMergeSHAs shas bb bs r d := by
  obtain ⟨h1, h2, _⟩ := Run_merge_event w o shas bb bs r d h
  exact ⟨h1, by rw [h1]; rfl, h2⟩

/-- Witness of C8: a merge collaborator that fails with "merge conflict". -/
theorem merge_result_propagated_witness :
    (Run (sampleWorld "" "" (some (GoError.errorf "merge conflict")))
      ⟨["X"], "origin", "", "main", ""⟩).err = some (GoError.errorf "merge conflict") :=
  (merge_result_propagated (sampleWorld "" "" (some (GoError.errorf "merge conflict")))
    ⟨["X"], "origin", "", "main", ""⟩ ["X"] "main" "" "origin" "" (by decide)).2.2

/-- C2, as stated, fails: with no flags, `PULL_REFS=:aaa,42:bbb` (an ordered mapping whose values
are strings and whose first key is the empty string) and `BRANCH_NAME=dev`, the merge collaborator
receives the base branch `dev`, which is not the first key. -/
theorem first_key_base_branch_counterexample :
    ParsePullRefs ":aaa,42:bbb"
      = Except.ok ⟨["", "42"], [("42", Value.str "bbb"), ("", Value.str "aaa")]⟩ ∧
    (Run (sampleWorld ":aaa,42:bbb" "dev" none) flagDefaults).trace.filter Event.isMerge
      = [Event.fetchAndMergeSHAs ["aaa", "bbb"] "dev" "" "origin" ""] :=
  ⟨rfl, by decide⟩

/-- C2, amended: with an empty SHAs option, an empty BaseBranch option and a non-empty `PULL_REFS`
parsed to a non-empty ordered mapping whose values are all strings, the merge collaborator is
called once, with the mapping's values in key order as SHAs (one per key, the first being the
value of the first key) and with the first key as base branch when that key is not the empty
string; when the first key is the empty string the base branch is the value of `BRANCH_NAME`. -/
theorem shas_and_base_from_pull_refs (w : World) (o : StepGitMergeOptions)
    (hs : o.SHAs = []) (hb : o.BaseBranch = "") (hp : w.getenv "PULL_REFS" ≠ "")
    (m : OrderedMap) (hm : w.ParsePullRefs (w.getenv "PULL_REFS") = Except.ok m)
    (hk : m.Keys ≠ []) (hv : ∀ k ∈ m.Keys, ∃ s, (m.Get k).1 = Value.str s)
    (hconv : ∀ s, w.AsString (Value.str s) = Except.ok s) :
    ∃ shas : List String,
      shas.map Value.str = m.Keys.map (fun k => (m.Get k).1) ∧
      shas.length = m.Keys.length ∧
      shas.head?.map Value.str = m.Keys.head?.map (fun k => (m.Get k).1) ∧
      (Run w o).trace.filter Event.isMerge
        = [Event.fetchAndMergeSHAs shas
            (if m.Keys.headD "" = "" then w.getenv "BRANCH_NAME" else m.Keys.headD "")
            o.BaseSHA o.Remote o.Dir] := by
  obtain ⟨hnone, hmap⟩ := convertSHAs_strings w m hconv m.Keys []
    (pullRefsEvents (w.getenv "PULL_REFS")) hv
  obtain ⟨_, hN⟩ := Run_shas_from_pull_refs w o hs hp m hm
  have hlen := convertSHAs_length w m m.Keys [] (pullRefsEvents (w.getenv "PULL_REFS")) hnone
  have hnm := convertSHAs_trace (fun e => e.isMerge = false) (fun _ => rfl) w m m.Keys []
    (pullRefsEvents (w.getenv "PULL_REFS")) (pullRefsEvents_no_merge _)
  simp only [List.map_nil, List.nil_append] at hmap
  simp only [List.length_nil, Nat.zero_add] at hlen
  refine ⟨(convertSHAs w m m.Keys [] (pullRefsEvents (w.getenv "PULL_REFS"))).1, hmap, hlen,
    ?_, ?_⟩
  · rw [← List.head?_map, ← List.head?_map, hmap]
  · rw [hN hnone]
    have hne : (convertSHAs w m m.Keys [] (pullRefsEvents (w.getenv "PULL_REFS"))).1 ≠ [] := by
      intro h0
      rw [h0] at hlen
      exact hk (List.length_eq_zero.1 hlen.symm)
    have := (mergeResolved_merge w
      { o with
        SHAs := (convertSHAs w m m.Keys [] (pullRefsEvents (w.getenv "PULL_REFS"))).1
        BaseBranch := if o.BaseBranch = "" then m.Keys.headD "" else o.BaseBranch }
      _ hnm hne).1
    rw [this]
    simp only [branchFallback, if_pos hb]

/-- Witness of C2 (amended): no flags and `PULL_REFS=master:aaa,42:bbb` give the base branch
`master` and the SHAs `aaa`, `bbb`. -/
theorem shas_and_base_from_pull_refs_witness :
    (Run (sampleWorld "master:aaa,42:bbb" "" none) flagDefaults).trace.filter Event.isMerge
      = [Event.fetchAndMergeSHAs ["aaa", "bbb"] "master" "" "origin" ""] := by
  obtain ⟨shas, h1, _, _, h4⟩ := shas_and_base_from_pull_refs
    (sampleWorld "master:aaa,42:bbb" "" none) flagDefaults rfl rfl (by decide)
    ⟨["master", "42"], [("42", Value.str "bbb"), ("master", Value.str "aaa")]⟩ rfl
    (by decide)
    (by
      intro k hk
      simp only [OrderedMap.Keys, List.mem_cons, List.mem_singleton, List.not_mem_nil,
        or_false] at hk
      rcases hk with h | h
      · exact ⟨"aaa", by rw [h]; rfl⟩
      · exact ⟨"bbb", by rw [h]; rfl⟩)
    (fun _ => rfl)
  have h5 : shas = ["aaa", "bbb"] := by
    have h6 : shas.map Value.str = [Value.str "aaa", Value.str "bbb"] := h1
    match shas, h6 with
    | [a, b], h6 =>
      simp at h6
      rw [h6.1, h6.2]
  rw [h4, h5]
  rfl

/-- C3: `Run` returns "no SHAs to merge" without calling the merge collaborator exactly when the
SHAs option is empty and `PULL_REFS` is empty or parses to an ordered mapping without keys,
whatever the base branch; with no flags, no `PULL_REFS` and `BRANCH_NAME=release` the base branch
resolves to `release` and `Run` returns "no SHAs to merge". -/
theorem no_shas_error_iff (w : World) (o : StepGitMergeOptions) :
    (((Run w o).err = some (GoError.errorf "no SHAs to merge") ∧
        (Run w o).trace.filter Event.isMerge = []) ↔
      (o.SHAs = [] ∧
        (w.getenv "PULL_REFS" = "" ∨
          ∃ m, w.ParsePullRefs (w.getenv "PULL_REFS") = Except.ok m ∧ m.Keys = []))) ∧
    (o.SHAs = [] → o.BaseBranch = "" → w.getenv "PULL_REFS" = "" →
      w.getenv "BRANCH_NAME" = "release" →
        (Run w o).err = some (GoError.errorf "no SHAs to merge") ∧
        (Run w o).o.BaseBranch = "release" ∧
        (Run w o).trace.filter Event.isMerge = []) := by
  have hempty : ∀ (o1 : StepGitMergeOptions) (tr : List Event),
      (∀ e ∈ tr, e.isMerge = false) → o1.SHAs = [] →
      (mergeResolved w o1 tr).err = some (GoError.errorf "no SHAs to merge") ∧
      (mergeResolved w o1 tr).trace.filter Event.isMerge = [] := by
    intro o1 tr htr h1
    rw [mergeResolved_nil w o1 tr h1]
    refine ⟨rfl, filter_isMerge_nil _ ?_⟩
    intro e he
    rcases List.mem_append.1 he with h | h
    · exact htr e h
    · exact branchEvents_no_merge o1 e h
  have hPR : ∀ e ∈ [Event.getenv "PULL_REFS"], e.isMerge = false := by simp [Event.isMerge]
  refine ⟨⟨?_, ?_⟩, ?_⟩
  · rintro ⟨herr, hfil⟩
    by_cases hs : o.SHAs = []
    · refine ⟨hs, ?_⟩
      by_cases hp : w.getenv "PULL_REFS" = ""
      · exact Or.inl hp
      · right
        cases hm : w.ParsePullRefs (w.getenv "PULL_REFS") with
        | error perr =>
          rw [Run_parse_error w o (Or.inl hs) hp perr hm] at herr
          simp at herr
        | ok m =>
          refine ⟨m, rfl, ?_⟩
          obtain ⟨hE, hN⟩ := Run_shas_from_pull_refs w o hs hp m hm
          cases hc : (convertSHAs w m m.Keys [] (pullRefsEvents (w.getenv "PULL_REFS"))).2.2 with
          | some e =>
            obtain ⟨c, msg, hw⟩ := convertSHAs_err_wrapf w m m.Keys _ _ e hc
            rw [hE e hc, hw] at herr
            simp at herr
          | none =>
            have hlen := convertSHAs_length w m m.Keys [] _ hc
            have hnm := convertSHAs_trace (fun e => e.isMerge = false) (fun _ => rfl) w m m.Keys
              [] (pullRefsEvents (w.getenv "PULL_REFS")) (pullRefsEvents_no_merge _)
            by_contra hk
            have hne : (convertSHAs w m m.Keys [] (pullRefsEvents (w.getenv "PULL_REFS"))).1
                ≠ [] := by
              intro h0
              rw [h0] at hlen
              simp only [List.length_nil, Nat.zero_add] at hlen
              exact hk (List.length_eq_zero.1 hlen.symm)
            have hmer := (mergeResolved_merge w
              { o with
                SHAs := (convertSHAs w m m.Keys [] (pullRefsEvents (w.getenv "PULL_REFS"))).1
                BaseBranch := if o.BaseBranch = "" then m.Keys.headD "" else o.BaseBranch }
              _ hnm hne).1
            rw [hN hc, hmer] at hfil
            simp at hfil
    · exfalso
      rcases Run_spec w o with ⟨_, ⟨c, msg, hw⟩ | ⟨_, h0⟩⟩ | ⟨_, hf, _⟩
      · rw [hw] at herr; simp at herr
      · by_cases hb : o.BaseBranch = ""
        · by_cases hp : w.getenv "PULL_REFS" = ""
          · rw [Run_no_pull_refs w o (Or.inr hb) hp, mergeResolved_o] at h0
            exact hs h0
          · cases hm : w.ParsePullRefs (w.getenv "PULL_REFS") with
            | error perr =>
              rw [Run_parse_error w o (Or.inr hb) hp perr hm] at herr
              simp at herr
            | ok m =>
              rw [Run_base_from_pull_refs w o hs hb hp m hm, mergeResolved_o] at h0
              exact hs h0
        · rw [Run_flags w o hs hb] at h0
          exact hs h0
      · rw [hf] at hfil; simp at hfil
  · rintro ⟨hs, hpr⟩
    by_cases hp : w.getenv "PULL_REFS" = ""
    · rw [Run_no_pull_refs w o (Or.inl hs) hp]
      exact hempty o _ hPR hs
    · rcases hpr with h1 | ⟨m, hm, hk⟩
      · exact absurd h1 hp
      · obtain ⟨_, hN⟩ := Run_shas_from_pull_refs w o hs hp m hm
        have hc : convertSHAs w m m.Keys [] (pullRefsEvents (w.getenv "PULL_REFS"))
            = ([], pullRefsEvents (w.getenv "PULL_REFS"), none) := by
          rw [hk]; rfl
        rw [hc] at hN
        rw [hN rfl]
        exact hempty _ _ (pullRefsEvents_no_merge _) rfl
  · intro hs hb hp hbn
    rw [Run_no_pull_refs w o (Or.inl hs) hp]
    refine ⟨(hempty o _ hPR hs).1, ?_, (hempty o _ hPR hs).2⟩
    rw [mergeResolved_o]
    simp [branchFallback, hb, hbn]

/-- Witness of C3: no flags, no `PULL_REFS`, `BRANCH_NAME=release`. -/
theorem no_shas_error_iff_witness :
    (Run (sampleWorld "" "release" none) flagDefaults).err
        = some (GoError.errorf "no SHAs to merge") ∧
      (Run (sampleWorld "" "release" none) flagDefaults).o.BaseBranch = "release" ∧
      (Run (sampleWorld "" "release" none) flagDefaults).trace.filter Event.isMerge = [] :=
  (no_shas_error_iff (sampleWorld "" "release" none) flagDefaults).2 rfl rfl rfl rfl

/-- C9: with a non-empty SHAs option, an empty BaseBranch option, a `PULL_REFS` that is empty or
parses to an ordered mapping without keys, and an empty `BRANCH_NAME`, `Run` does not fail on
its own: it calls the merge collaborator once, with the SHAs of the options and the empty string
as base branch, and returns the collaborator's result. -/
theorem shas_without_base_branch (w : World) (o : StepGitMergeOptions) (hs : o.SHAs ≠ [])
    (hb : o.BaseBranch = "")
    (hp : w.getenv "PULL_REFS" = "" ∨
      ∃ m, w.ParsePullRefs (w.getenv "PULL_REFS") = Except.ok m ∧ m.Keys = [])
    (hbn : w.getenv "BRANCH_NAME" = "") :
    (Run w o).trace.filter Event.isMerge
      = [Event.fetchAndMergeSHAs o.SHAs "" o.BaseSHA o.Remote o.Dir] ∧
    (Run w o).err = w.FetchAndMergeSHAs o.SHAs "" o.BaseSHA o.Remote o.Dir := by
  by_cases hp0 : w.getenv "PULL_REFS" = ""
  · rw [Run_no_pull_refs w o (Or.inr hb) hp0]
    have h := mergeResolved_merge w o [Event.getenv "PULL_REFS"] (by simp [Event.isMerge]) hs
    simpa [branchFallback, hb, hbn] using h
  · rcases hp with h1 | ⟨m, hm, hk⟩
    · exact absurd h1 hp0
    · rw [Run_base_from_pull_refs w o hs hb hp0 m hm]
      have h := mergeResolved_merge w { o with BaseBranch := m.Keys.headD "" }
        (pullRefsEvents (w.getenv "PULL_REFS")) (pullRefsEvents_no_merge _) hs
      simpa [branchFallback, hk, hbn] using h

/-- Witness of C9: `--sha X` with neither `PULL_REFS` nor `BRANCH_NAME` set. -/
theorem shas_without_base_branch_witness :
    (Run (sampleWorld "" "" none) ⟨["X"], "origin", "", "", ""⟩).trace.filter Event.isMerge
      = [Event.fetchAndMergeSHAs ["X"] "" "" "origin" ""] ∧
    (Run (sampleWorld "" "" none) ⟨["X"], "origin", "", "", ""⟩).err = none :=
  shas_without_base_branch (sampleWorld "" "" none) ⟨["X"], "origin", "", "", ""⟩
    (by decide) rfl (Or.inl rfl) rfl

/-- C10, as stated, fails: with `--sha X`, no `--baseBranch`, `PULL_REFS=:aaa` (accepted by the
parser, its only key being the empty string) and `BRANCH_NAME=dev`, `BRANCH_NAME` is read and
becomes the base branch although `PULL_REFS` supplied a key, and the base branch is not that
key. -/
theorem precedence_counterexample :
    ParsePullRefs ":aaa" = Except.ok ⟨[""], [("", Value.str "aaa")]⟩ ∧
    (Run (sampleWorld ":aaa" "dev" none) ⟨["X"], "origin", "", "", ""⟩).trace
      = [Event.getenv "PULL_REFS", Event.infof "Using SHAs from PULL_REFS=:aaa\n",
         Event.parsePullRefs ":aaa", Event.getenv "BRANCH_NAME",
         Event.fetchAndMergeSHAs ["X"] "dev" "" "origin" ""] :=
  ⟨rfl, by decide⟩

/-- C10, amended: with a non-empty `PULL_REFS` that the parser accepts, (i) when the SHAs option
is non-empty and BaseBranch is empty, the merge collaborator is called once with the flag SHAs
unchanged, whatever the mapping holds, and with the first key of the mapping as base branch
provided that key is not the empty string (then `BRANCH_NAME` is not read); when the mapping has
no key or its first key is the empty string the base branch is the value of `BRANCH_NAME`;
(ii) when BaseBranch is non-empty and SHAs is empty, the base branch stays the flag value,
`BRANCH_NAME` is not read, and, the mapping's values being all strings, the SHAs are the
mapping's values in key order; and (iii) in every invocation, `BRANCH_NAME` is read to become
the base branch only when the BaseBranch option is empty and `PULL_REFS` supplied no non-empty
first key (it is empty, or parsed to a mapping that has no key or whose first key is the empty
string). -/
theorem resolution_precedence (w : World) (o : StepGitMergeOptions) :
    (∀ m, w.getenv "PULL_REFS" ≠ "" → w.ParsePullRefs (w.getenv "PULL_REFS") = Except.ok m →
      o.SHAs ≠ [] → o.BaseBranch = "" →
        (Run w o).trace.filter Event.isMerge
          = [Event.fetchAndMergeSHAs o.SHAs
              (if m.Keys.headD "" = "" then w.getenv "BRANCH_NAME" else m.Keys.headD "")
              o.BaseSHA o.Remote o.Dir] ∧
        (Run w o).o.SHAs = o.SHAs ∧
        (∀ k, m.Keys.head? = some k → k ≠ "" →
          (Run w o).trace.filter Event.isMerge
            = [Event.fetchAndMergeSHAs o.SHAs k o.BaseSHA o.Remote o.Dir] ∧
          Event.getenv "BRANCH_NAME" ∉ (Run w o).trace)) ∧
    (∀ m, w.getenv "PULL_REFS" ≠ "" → w.ParsePullRefs (w.getenv "PULL_REFS") = Except.ok m →
      o.BaseBranch ≠ "" → o.SHAs = [] →
        (Run w o).o.BaseBranch = o.BaseBranch ∧
        Event.getenv "BRANCH_NAME" ∉ (Run w o).trace ∧
        (∀ shas bb bs r d, Event.fetchAndMergeSHAs shas bb bs r d ∈ (Run w o).trace →
          bb = o.BaseBranch) ∧
        ((∀ k ∈ m.Keys, ∃ s, (m.Get k).1 = Value.str s) →
          (∀ s, w.AsString (Value.str s) = Except.ok s) →
            (Run w o).o.SHAs.map Value.str = m.Keys.map (fun k => (m.Get k).1) ∧
            (m.Keys ≠ [] →
              (Run w o).trace.filter Event.isMerge
                = [Event.fetchAndMergeSHAs (Run w o).o.SHAs o.BaseBranch o.BaseSHA o.Remote
                    o.Dir]))) ∧
    (Event.getenv "BRANCH_NAME" ∈ (Run w o).trace →
      o.BaseBranch = "" ∧
      (w.getenv "PULL_REFS" = "" ∨
        ∃ m, w.ParsePullRefs (w.getenv "PULL_REFS") = Except.ok m ∧
          (m.Keys = [] ∨ m.Keys.head? = some ""))) := by
  refine ⟨?_, ?_, ?_⟩
  · intro m hp hm hs hb
    have hfil : (Run w o).trace.filter Event.isMerge
        = [Event.fetchAndMergeSHAs o.SHAs
            (if m.Keys.headD "" = "" then w.getenv "BRANCH_NAME" else m.Keys.headD "")
            o.BaseSHA o.Remote o.Dir] := by
      rw [Run_base_from_pull_refs w o hs hb hp m hm]
      exact (mergeResolved_merge w { o with BaseBranch := m.Keys.headD "" }
        (pullRefsEvents (w.getenv "PULL_REFS")) (pullRefsEvents_no_merge _) hs).1
    refine ⟨hfil, ?_, ?_⟩
    · rw [Run_base_from_pull_refs w o hs hb hp m hm, mergeResolved_o]
    · intro k hk hk0
      have hd : m.Keys.headD "" = k := by
        cases hkk : m.Keys with
        | nil => rw [hkk] at hk; simp at hk
        | cons a rest => rw [hkk] at hk; simp at hk; simp [hk]
      refine ⟨?_, Run_no_branch_name w o m (Or.inr hb) hp hm (Or.inr (by rw [hd]; exact hk0))⟩
      rw [hfil, hd, if_neg hk0]
  · intro m hp hm hb hs
    obtain ⟨hE, hN⟩ := Run_shas_from_pull_refs w o hs hp m hm
    have hnm := convertSHAs_trace (fun e => e.isMerge = false) (fun _ => rfl) w m m.Keys []
      (pullRefsEvents (w.getenv "PULL_REFS")) (pullRefsEvents_no_merge _)
    refine ⟨?_, Run_no_branch_name w o m (Or.inl hs) hp hm (Or.inl hb), ?_, ?_⟩
    · cases hc : (convertSHAs w m m.Keys [] (pullRefsEvents (w.getenv "PULL_REFS"))).2.2 with
      | some e => rw [hE e hc]
      | none =>
        rw [hN hc, mergeResolved_o]
        simp only [if_neg hb, branchFallback]
    · intro shas bb bs r d hmem
      exact (Run_merge_resolved w o shas bb bs r d hmem).2.1 hb
    · intro hv hconv
      obtain ⟨hnone, hmap⟩ := convertSHAs_strings w m hconv m.Keys []
        (pullRefsEvents (w.getenv "PULL_REFS")) hv
      have hlen := convertSHAs_length w m m.Keys [] (pullRefsEvents (w.getenv "PULL_REFS")) hnone
      simp only [List.map_nil, List.nil_append] at hmap
      simp only [List.length_nil, Nat.zero_add] at hlen
      rw [hN hnone, mergeResolved_o]
      simp only [if_neg hb, branchFallback]
      refine ⟨hmap, ?_⟩
      intro hk
      have hne : (convertSHAs w m m.Keys [] (pullRefsEvents (w.getenv "PULL_REFS"))).1 ≠ [] := by
        intro h0
        rw [h0] at hlen
        exact hk (List.length_eq_zero.1 hlen.symm)
      have h := (mergeResolved_merge w
        { o with
          SHAs := (convertSHAs w m m.Keys [] (pullRefsEvents (w.getenv "PULL_REFS"))).1
          BaseBranch := o.BaseBranch }
        _ hnm hne).1
      simpa [branchFallback, hb] using h
  · intro hmem
    by_cases hb : o.BaseBranch = ""
    · refine ⟨hb, ?_⟩
      by_cases hp : w.getenv "PULL_REFS" = ""
      · exact Or.inl hp
      · right
        cases hm : w.ParsePullRefs (w.getenv "PULL_REFS") with
        | error perr =>
          rw [Run_parse_error w o (Or.inr hb) hp perr hm] at hmem
          exact absurd hmem (pullRefsEvents_no_branch_name _)
        | ok m =>
          refine ⟨m, rfl, ?_⟩
          by_cases hd : m.Keys.headD "" = ""
          · cases hkk : m.Keys with
            | nil => exact Or.inl rfl
            | cons a rest =>
              rw [hkk] at hd
              simp at hd
              right; simp [hd]
          · exact absurd hmem (Run_no_branch_name w o m (Or.inr hb) hp hm (Or.inr hd))
    · exfalso
      by_cases hs : o.SHAs = []
      · by_cases hp : w.getenv "PULL_REFS" = ""
        · rw [Run_no_pull_refs w o (Or.inl hs) hp] at hmem
          exact mergeResolved_no_branch_name w o _ hb (by simp) hmem
        · cases hm : w.ParsePullRefs (w.getenv "PULL_REFS") with
          | error perr =>
            rw [Run_parse_error w o (Or.inl hs) hp perr hm] at hmem
            exact pullRefsEvents_no_branch_name _ hmem
          | ok m => exact Run_no_branch_name w o m (Or.inl hs) hp hm (Or.inl hb) hmem
      · rw [Run_flags w o hs hb] at hmem
        simp at hmem

/-- Witness of C10 (amended): `--sha X` with `PULL_REFS=master:aaa,42:bbb` and `BRANCH_NAME=dev`
merges `X` alone into `master`, and with `PULL_REFS=:aaa,7:bbb` it still merges `X` alone, into
`dev`. -/
theorem resolution_precedence_witness :
    ((Run (sampleWorld "master:aaa,42:bbb" "dev" none)
        ⟨["X"], "origin", "", "", ""⟩).trace.filter Event.isMerge
      = [Event.fetchAndMergeSHAs ["X"] "master" "" "origin" ""] ∧
    Event.getenv "BRANCH_NAME" ∉
      (Run (sampleWorld "master:aaa,42:bbb" "dev" none) ⟨["X"], "origin", "", "", ""⟩).trace) ∧
    (Run (sampleWorld ":aaa,7:bbb" "dev" none)
        ⟨["X"], "origin", "", "", ""⟩).trace.filter Event.isMerge
      = [Event.fetchAndMergeSHAs ["X"] "dev" "" "origin" ""] :=
  ⟨((resolution_precedence (sampleWorld "master:aaa,42:bbb" "dev" none)
      ⟨["X"], "origin", "", "", ""⟩).1
    ⟨["master", "42"], [("42", Value.str "bbb"), ("master", Value.str "aaa")]⟩
    (by decide) rfl (by decide) rfl).2.2 "master" rfl (by decide),
   ((resolution_precedence (sampleWorld ":aaa,7:bbb" "dev" none)
      ⟨["X"], "origin", "", "", ""⟩).1
    ⟨["", "7"], [("7", Value.str "bbb"), ("", Value.str "aaa")]⟩
    (by decide) rfl (by decide) rfl).1⟩

end StepGitMerge
